import Mathlib

/-!
Verification of the simple-query engine and the simulation endpoint of the
go-kademlia repository.

The embedding follows the Go source closely:

* `query/simplequery/query.go` is embedded as pure functions on a
  `SimpleQuery` record.  Scheduler enqueues, routing-table calls and
  peerstore calls performed during an action are returned as an explicit
  `Effect` trace.  The context is a per-action boolean `cancelled`
  (the scheduler is single threaded, so the context state is read during
  an action as one value).  The user-supplied result callback
  `handleResultFn` is arbitrary user code, so its outcome `(stop, useful)`
  is a parameter of the `handleResponse` step.
* `sim/endpoint.go` is embedded as pure functions on an `EndpointState`
  record whose Go maps become association lists; callbacks delivered to a
  stream are returned as a `(streamID, payload)` log.
* The peerlist (`peerlist.go`) and the scheduler/planner are code of the
  repository that is not available here; they are modelled from the spec,
  as marked in the doc comments of the corresponding definitions.

Machine integers: the Go fields `inflightRequests` and `concurrency` are
`int` and may go negative, so they are embedded as `Int`.
-/

namespace GoKademlia

/-- Peer identifier: a stable string form plus a DHT key.  The key bits are
embedded as a `Nat` (keys only need equality and XOR distance here). -/
structure NodeID where
  name : String
  key : Nat
deriving DecidableEq

/-- Network address of a peer, exposing its `NodeID` (address details are
irrelevant to the claims). -/
structure NodeAddr where
  nodeID : NodeID
deriving DecidableEq

/-- Frontier status of a peer, from the spec of the peerlist. -/
inductive PeerStatus where
  | queued
  | waiting
  | queried
  | unreachable
deriving DecidableEq

/-- Response message: the part of `MinKadResponseMessage` the code uses,
namely `CloserNodes()`. -/
structure ResponseMsg where
  closerNodes : List NodeAddr
deriving DecidableEq

/-- Modelled from the spec: the frontier (peerlist), an ordered collection
of `(NodeID, status)` pairs in ascending XOR distance from the target,
with NodeID string as tie break. -/
structure PeerList where
  target : Nat
  entries : List (NodeID × PeerStatus)
deriving DecidableEq

/-- Ordering used by the frontier: ascending XOR distance to the target,
ties broken by the NodeID string ascending. -/
def plBefore (target : Nat) (a b : NodeID) : Bool :=
  if a.key ^^^ target < b.key ^^^ target then true
  else if a.key ^^^ target = b.key ^^^ target then decide (a.name < b.name)
  else false

/-- Insert one node with status queued, keeping the distance order. -/
def plInsertSorted (target : Nat) (e : NodeID) :
    List (NodeID × PeerStatus) → List (NodeID × PeerStatus)
  | [] => [(e, PeerStatus.queued)]
  | x :: xs =>
    if plBefore target e x.1 then (e, PeerStatus.queued) :: x :: xs
    else x :: plInsertSorted target e xs

/-- Membership in the frontier is by the NodeID string. -/
def plHasName (l : List (NodeID × PeerStatus)) (s : String) : Bool :=
  l.any (fun x => x.1.name == s)

/-- Modelled from the spec: `add(nodes)` inserts nodes with status queued,
preserving the distance order; duplicates (by NodeID string) are ignored,
first seen wins. -/
def addToPeerlist (pl : PeerList) (nodes : List NodeID) : PeerList :=
  nodes.foldl
    (fun acc n =>
      if plHasName acc.entries n.name then acc
      else { acc with entries := plInsertSorted acc.target n acc.entries })
    pl

/-- Helper for `popClosestQueued`: mark the first queued entry waiting and
return its id. -/
def popAux : List (NodeID × PeerStatus) →
    Option NodeID × List (NodeID × PeerStatus)
  | [] => (none, [])
  | x :: xs =>
    if x.2 = PeerStatus.queued then (some x.1, (x.1, PeerStatus.waiting) :: xs)
    else
      let r := popAux xs
      (r.1, x :: r.2)

/-- Modelled from the spec: return the queued entry with minimum distance,
transitioning its status to waiting; `none` if nothing is queued.  (The
list is sorted, so the first queued entry is the closest one.) -/
def popClosestQueued (pl : PeerList) : Option NodeID × PeerList :=
  let r := popAux pl.entries
  (r.1, { pl with target := pl.target, entries := r.2 })

/-- Modelled from the spec: the allowed monotonic status transitions,
queued to waiting, waiting to queried, waiting to unreachable. -/
def statusTransitionOk : PeerStatus → PeerStatus → Bool
  | PeerStatus.queued, PeerStatus.waiting => true
  | PeerStatus.waiting, PeerStatus.queried => true
  | PeerStatus.waiting, PeerStatus.unreachable => true
  | _, _ => false

/-- Modelled from the spec: `setStatus` transitions an existing entry,
ignoring invalid transitions. -/
def updatePeerStatusInPeerlist (pl : PeerList) (id : NodeID)
    (st : PeerStatus) : PeerList :=
  { pl with
    entries := pl.entries.map (fun x =>
      if x.1.name == id.name then
        (x.1, if statusTransitionOk x.2 st then st else x.2)
      else x) }

/-- Modelled from the spec: number of entries currently queued. -/
def queuedCount (pl : PeerList) : Nat :=
  pl.entries.countP (fun x => x.2 == PeerStatus.queued)

/-- Observable side effects of one query action: scheduler enqueues,
routing table calls, endpoint calls, in program order. -/
inductive Effect where
  | enqueueNewRequest
  | sendRequest (id : NodeID)
  | rtAddPeer (id : NodeID)
  | rtRemoveKey (k : Nat)
  | maybeAddToPeerstoreFx (a : NodeAddr)
deriving DecidableEq

/-- State of a `SimpleQuery` (query.go).  `inflightRequests` is the Go
`int` field counting requests that are either in flight or scheduled. -/
structure SimpleQuery where
  done : Bool
  concurrency : Int
  inflightRequests : Int
  peerlist : PeerList
  selfKey : Nat
deriving DecidableEq

/-- Embedding of `SimpleQuery.checkIfDone`: errors when the query is done;
on a cancelled context marks the query done and errors.  The boolean
result is true when an error was returned. -/
def checkIfDone (q : SimpleQuery) (cancelled : Bool) : SimpleQuery × Bool :=
  if q.done then (q, true)
  else if cancelled then ({ q with done := true }, true)
  else (q, false)

/-- Embedding of `SimpleQuery.newRequest`: on error or empty pop decrement
`inflightRequests`; otherwise send the request to the popped peer. -/
def newRequest (q : SimpleQuery) (cancelled : Bool) :
    SimpleQuery × List Effect :=
  let c := checkIfDone q cancelled
  if c.2 then ({ c.1 with inflightRequests := c.1.inflightRequests - 1 }, [])
  else
    let p := popClosestQueued c.1.peerlist
    let q2 := { c.1 with peerlist := p.2 }
    match p.1 with
    | none => ({ q2 with inflightRequests := q2.inflightRequests - 1 }, [])
    | some id =>
      if id.name = "" then
        ({ q2 with inflightRequests := q2.inflightRequests - 1 }, [])
      else (q2, [Effect.sendRequest id])

/-- Embedding of `SimpleQuery.requestError`: decrement `inflightRequests`;
remove the peer key from the routing table unless the context is
cancelled; if the query is done or cancelled return; otherwise mark the
peer unreachable and enqueue one replacement `newRequest`.  Note that the
Go code does not increment `inflightRequests` for the replacement. -/
def requestError (q : SimpleQuery) (cancelled : Bool) (id : NodeID) :
    SimpleQuery × List Effect :=
  let q1 := { q with inflightRequests := q.inflightRequests - 1 }
  let effs := if cancelled then [] else [Effect.rtRemoveKey id.key]
  let c := checkIfDone q1 cancelled
  if c.2 then (c.1, effs)
  else
    let q3 :=
      { c.1 with
        peerlist := updatePeerStatusInPeerlist c.1.peerlist id
          PeerStatus.unreachable }
    (q3, effs ++ [Effect.enqueueNewRequest])

/-- Go semantics of `closerPeers = append(closerPeers[:i], closerPeers[i+1:]...)`
on the array underlying a slice of length `arr.length`: elements after
index `i` shift left one place and the last array cell keeps its old
value. -/
def shiftRemove (arr : List NodeAddr) (i : Nat) : List NodeAddr :=
  arr.take i ++ arr.drop (i + 1) ++ arr.drop (arr.length - 1)

/-- Embedding of the closer-peers loop of `SimpleQuery.handleResponse`,
with Go range semantics: the iteration count is the original length, each
iteration reads the current array cell at index `i`, a self entry is
removed in place (shifting the array), other entries are passed to
`MaybeAddToPeerstore`.  Returns the final array and the effect trace. -/
def closerPeersLoopAux (selfKey : Nat) :
    Nat → Nat → List NodeAddr → List NodeAddr × List Effect
  | 0, _, arr => (arr, [])
  | n + 1, i, arr =>
    let a := arr.getD i ⟨⟨"", 0⟩⟩
    if a.nodeID.key == selfKey then
      closerPeersLoopAux selfKey n (i + 1) (shiftRemove arr i)
    else
      let r := closerPeersLoopAux selfKey n (i + 1) arr
      (r.1, Effect.maybeAddToPeerstoreFx a :: r.2)

/-- Closer-peers loop started at index 0 over the whole list. -/
def closerPeersLoop (selfKey : Nat) (arr : List NodeAddr) :
    List NodeAddr × List Effect :=
  closerPeersLoopAux selfKey arr.length 0 arr

/-- Embedding of `SimpleQuery.handleResponse`.  `resp = none` is the nil
response, diverted to `requestError`.  `(stop, useful)` is the outcome of
the user-supplied `handleResultFn` for this invocation. -/
def handleResponse (q : SimpleQuery) (cancelled : Bool) (id : NodeID)
    (resp : Option ResponseMsg) (stop : Bool) (useful : List NodeID) :
    SimpleQuery × List Effect :=
  let c := checkIfDone q cancelled
  if c.2 then (c.1, [])
  else
    match resp with
    | none => requestError c.1 cancelled id
    | some r =>
      let q2 := { c.1 with inflightRequests := c.1.inflightRequests - 1 }
      let closer := r.closerNodes
      let effAdd := if 0 < closer.length then [Effect.rtAddPeer id] else []
      let q3 :=
        { q2 with
          peerlist := updatePeerStatusInPeerlist q2.peerlist id
            PeerStatus.queried }
      let loop := closerPeersLoop q3.selfKey closer
      if stop then ({ q3 with done := true }, effAdd ++ loop.2)
      else
        let q4 := { q3 with peerlist := addToPeerlist q3.peerlist useful }
        let n0 : Int := q4.concurrency - q4.inflightRequests
        let n : Int :=
          if (queuedCount q4.peerlist : Int) < n0 then
            (queuedCount q4.peerlist : Int)
          else n0
        ({ q4 with inflightRequests := q4.inflightRequests + n },
         effAdd ++ loop.2 ++ List.replicate n.toNat Effect.enqueueNewRequest)

/-- Embedding of `NewSimpleQuery` after its option processing: seed the
peerlist with the closest peers from the routing table, enqueue
`min(len(closestPeers), concurrency)` `newRequest` actions and set
`inflightRequests` to that count. -/
def NewSimpleQuery (target selfKey : Nat) (concurrency : Int)
    (closestPeers : List NodeID) : SimpleQuery × List Effect :=
  let pl := addToPeerlist { target := target, entries := [] } closestPeers
  let requestsEvents : Int :=
    if (closestPeers.length : Int) < concurrency then
      (closestPeers.length : Int)
    else concurrency
  ({ done := false
     concurrency := concurrency
     inflightRequests := requestsEvents
     peerlist := pl
     selfKey := selfKey },
   List.replicate requestsEvents.toNat Effect.enqueueNewRequest)

/-- Errors of the endpoint (network/endpoint errors used by sim/endpoint.go). -/
inductive Err where
  | errUnknownPeer
  | errTimeout
  | errInvalidResponseType
  | routerErr
deriving DecidableEq

/-- Connectedness values of the libp2p network package used by the sim
endpoint. -/
inductive Conn where
  | notConnected
  | canConnect
  | connected
deriving DecidableEq

/-- State of the simulation `Endpoint` (sim/endpoint.go).  The Go maps
`peerstore` and `connStatus` become association lists; the maps
`streamFollowup` and `streamTimeout` only matter through the presence of
a stream id, so they become lists of stream ids.  Membership of a stream
id in `streamTimeout` coincides with the planner holding the planned
timeout action for that stream: the two are always added and removed
together in the source. -/
structure EndpointState where
  peerstore : List (String × NodeAddr)
  connStatus : List (String × Conn)
  streamFollowup : List Nat
  streamTimeout : List Nat
deriving DecidableEq

/-- Association list lookup (Go map read with its value). -/
def lookupA {β : Type} (l : List (String × β)) (s : String) : Option β :=
  (l.find? (fun x => x.1 == s)).map (fun x => x.2)

/-- Association list membership (Go `_, ok := m[k]`). -/
def hasKeyA {β : Type} (l : List (String × β)) (s : String) : Bool :=
  l.any (fun x => x.1 == s)

/-- Association list write (Go map assignment, overwriting). -/
def setA {β : Type} (l : List (String × β)) (s : String) (v : β) :
    List (String × β) :=
  if hasKeyA l s then l.map (fun x => if x.1 == s then (s, v) else x)
  else l ++ [(s, v)]

/-- Stream id set insert (Go map assignment with the id as the key). -/
def insertSid (l : List Nat) (s : Nat) : List Nat :=
  if s ∈ l then l else l ++ [s]

/-- Stream id set delete (Go map delete). -/
def removeSid (l : List Nat) (s : Nat) : List Nat :=
  l.filter (fun x => !(x == s))

/-- Embedding of `Endpoint.DialPeer`: connected peers dial trivially,
peers that can connect become connected, anything else is
`ErrUnknownPeer`. -/
def DialPeer (e : EndpointState) (id : NodeID) : EndpointState × Option Err :=
  match lookupA e.connStatus id.name with
  | some Conn.connected => (e, none)
  | some Conn.canConnect =>
    ({ e with connStatus := setA e.connStatus id.name Conn.connected }, none)
  | _ => (e, some Err.errUnknownPeer)

/-- Embedding of `Endpoint.MaybeAddToPeerstore`: record the address and a
CanConnect status only when absent; always return nil. -/
def MaybeAddToPeerstore (e : EndpointState) (a : NodeAddr) (ttl : Nat) :
    EndpointState × Option Err :=
  let s := a.nodeID.name
  let ps := if hasKeyA e.peerstore s then e.peerstore else e.peerstore ++ [(s, a)]
  let cs :=
    if hasKeyA e.connStatus s then e.connStatus
    else e.connStatus ++ [(s, Conn.canConnect)]
  ({ e with peerstore := ps, connStatus := cs }, none)

/-- Payload carried by one invocation of a response handler callback:
exactly one of a response message, a dial error, a router send error, the
timeout error, or the invalid-response-type error. -/
inductive CbPayload where
  | response (r : ResponseMsg)
  | errDial (err : Err)
  | errSend
  | timedOut
  | invalidResponse
deriving DecidableEq

/-- Embedding of `Endpoint.SendRequestHandleResponse`.  `routerSid` is the
outcome of `router.SendMessage` (the router is outside this package):
`none` when the router returns an error, otherwise the allocated stream
id.  The returned list holds the callback invocations enqueued on the
scheduler during the call itself (dial or send failures). -/
def SendRequestHandleResponse (e : EndpointState) (id : NodeID)
    (timeout : Nat) (routerSid : Option Nat) :
    EndpointState × List CbPayload :=
  let d := DialPeer e id
  match d.2 with
  | some err => (d.1, [CbPayload.errDial err])
  | none =>
    match routerSid with
    | none => (d.1, [CbPayload.errSend])
    | some sid =>
      let e2 := { d.1 with streamFollowup := insertSid d.1.streamFollowup sid }
      let e3 :=
        if timeout ≠ 0 then
          { e2 with streamTimeout := insertSid e2.streamTimeout sid }
        else e2
      (e3, [])

/-- Peerstore updates of the response branch of `Endpoint.HandleMessage`:
every closer node is written to the peerstore and set CanConnect,
overwriting. -/
def addCloserNodes (e : EndpointState) (l : List NodeAddr) : EndpointState :=
  l.foldl
    (fun acc p =>
      { acc with
        peerstore := setA acc.peerstore p.nodeID.name p
        connStatus := setA acc.connStatus p.nodeID.name Conn.canConnect })
    e

/-- Embedding of `Endpoint.HandleMessage` for an incoming message on
stream `sid`.  `msg = some r` is a message that casts to
`MinKadResponseMessage`; `msg = none` is any other message.  When a
followup handler is registered for `sid`, the planned timeout is removed,
both stream entries are deleted, closer nodes are recorded, and the
followup is enqueued with the response or with `ErrInvalidResponseType`.
Otherwise the message is treated as a request for the server side, which
never invokes a client callback.  The callback log tags each payload with
its stream id. -/
def HandleMessage (e : EndpointState) (sid : Nat) (msg : Option ResponseMsg) :
    EndpointState × List (Nat × CbPayload) :=
  if sid ∈ e.streamFollowup then
    let e1 :=
      { e with
        streamFollowup := removeSid e.streamFollowup sid
        streamTimeout := removeSid e.streamTimeout sid }
    match msg with
    | some r => (addCloserNodes e1 r.closerNodes, [(sid, CbPayload.response r)])
    | none => (e1, [(sid, CbPayload.invalidResponse)])
  else (e, [])

/-- Embedding of the timeout closure planned by
`SendRequestHandleResponse`: when it fires, it deletes both stream
entries, and invokes the followup with `ErrTimeout` when one was still
registered. -/
def timeoutFire (e : EndpointState) (sid : Nat) :
    EndpointState × List (Nat × CbPayload) :=
  let hasF := sid ∈ e.streamFollowup
  let e1 :=
    { e with
      streamFollowup := removeSid e.streamFollowup sid
      streamTimeout := removeSid e.streamTimeout sid }
  if hasF then (e1, [(sid, CbPayload.timedOut)]) else (e1, [])

/-- External events driving the endpoint after a request was sent: a
message arriving on a stream, or a planned timeout deadline elapsing. -/
inductive NetEvent where
  | msgArrive (sid : Nat) (msg : Option ResponseMsg)
  | timerFire (sid : Nat)
deriving DecidableEq

/-- Modelled from the spec: one scheduler step of the endpoint.  The
planner fires a timeout action only while it still holds it, and
membership in `streamTimeout` tracks planner membership exactly, so a
`timerFire` for an unplanned stream does nothing. -/
def execEvent (e : EndpointState) : NetEvent → EndpointState × List (Nat × CbPayload)
  | NetEvent.msgArrive sid m => HandleMessage e sid m
  | NetEvent.timerFire sid =>
    if sid ∈ e.streamTimeout then timeoutFire e sid else (e, [])

/-- Run a list of events, concatenating the callback logs. -/
def execEvents (e : EndpointState) : List NetEvent →
    EndpointState × List (Nat × CbPayload)
  | [] => (e, [])
  | ev :: evs =>
    let s := execEvent e ev
    let r := execEvents s.1 evs
    (r.1, s.2 ++ r.2)

/-- Number of callback invocations delivered to stream `sid` in a log. -/
def deliveredTo (sid : Nat) (log : List (Nat × CbPayload)) : Nat :=
  log.countP (fun x => x.1 == sid)

/-- Interpret the routing-table calls of an effect trace over a table of
keys.  `RemoveKey` removes the sole entry with that key; the admission
behavior of `AddPeer` lives outside this package, so it is a parameter
`add`. -/
def applyRTEffects (add : List Nat → NodeID → List Nat) (rt : List Nat) :
    List Effect → List Nat
  | [] => rt
  | e :: es =>
    let rt2 :=
      match e with
      | Effect.rtRemoveKey k => rt.filter (fun x => !(x == k))
      | Effect.rtAddPeer id => add rt id
      | _ => rt
    applyRTEffects add rt2 es

/-- One scheduled action of a query: `newRequest`, a `handleResponse`
follow-up (whose response, cancellation status and user-callback outcome
are arbitrary), or a `requestError` follow-up. -/
inductive QStep : SimpleQuery → SimpleQuery → Prop where
  | newReq (q : SimpleQuery) (cancelled : Bool) :
      QStep q (newRequest q cancelled).1
  | handleResp (q : SimpleQuery) (cancelled : Bool) (id : NodeID)
      (resp : Option ResponseMsg) (stop : Bool) (useful : List NodeID) :
      QStep q (handleResponse q cancelled id resp stop useful).1
  | reqErr (q : SimpleQuery) (cancelled : Bool) (id : NodeID) :
      QStep q (requestError q cancelled id).1

/-- Reachability of a query state from construction by any sequence of
scheduled actions. -/
def QReachable (t s : Nat) (conc : Int) (cps : List NodeID)
    (q : SimpleQuery) : Prop :=
  Relation.ReflTransGen QStep (NewSimpleQuery t s conc cps).1 q

/-- Per-stream accounting invariant of the endpoint: the number of
callback deliveries for the stream plus the pending followup handler is
one, and a planned timeout implies a pending followup. -/
def SidInv (sid : Nat) (e : EndpointState) (d : Nat) : Prop :=
  d + (if sid ∈ e.streamFollowup then 1 else 0) = 1 ∧
  (sid ∈ e.streamTimeout → sid ∈ e.streamFollowup)

/-- Sample peer used in concrete evaluations. -/
def pA : NodeID := { name := "p", key := 5 }

/-- Live query state: not done, concurrency 3, two requests in flight,
`pA` waiting in the frontier. -/
def qLive : SimpleQuery :=
  { done := false
    concurrency := 3
    inflightRequests := 2
    peerlist := { target := 0, entries := [(pA, PeerStatus.waiting)] }
    selfKey := 0 }

/-- Same state with the done flag set. -/
def qDone : SimpleQuery := { qLive with done := true }

/-- Closer-nodes list beginning with the local node, then two peers. -/
def closerWithSelf : List NodeAddr :=
  [{ nodeID := { name := "self", key := 0 } },
   { nodeID := { name := "p1", key := 1 } },
   { nodeID := { name := "p2", key := 2 } }]

/-- Endpoint state able to dial peer `p`. -/
def eDialable : EndpointState :=
  { peerstore := [("p", { nodeID := { name := "p", key := 5 } })]
    connStatus := [("p", Conn.canConnect)]
    streamFollowup := []
    streamTimeout := [] }

theorem hasKeyA_append_self {β : Type} (l : List (String × β)) (s : String)
    (v : β) : hasKeyA (l ++ [(s, v)]) s = true := by
  simp [hasKeyA, List.any_append]

/-- C1: the claim says a requestError on a live, uncancelled query
schedules one replacement newRequest with inflight incremented by one.
The code decrements inflight, removes the key, schedules exactly one
replacement newRequest, and never re-increments: from inflight two the
counter ends at one, not two.  This contradicts the declared meaning of
the field (requests in flight or scheduled), so the code is at fault. -/
theorem c1_requestError_drops_inflight_for_replacement :
    qLive.done = false ∧
    qLive.inflightRequests = 2 ∧
    (requestError qLive false pA).2.countP
      (fun e => e == Effect.enqueueNewRequest) = 1 ∧
    Effect.rtRemoveKey pA.key ∈ (requestError qLive false pA).2 ∧
    (requestError qLive false pA).1.inflightRequests = 1 := by
  decide

/-- C3 counterexample: with the done flag set and the context alive, a
requestError still decrements inflight and still removes the peer key
from the routing table, so a late action is not a no-op once done. -/
theorem c3_done_requestError_changes_state_cex :
    qDone.done = true ∧
    (requestError qDone false pA).1 ≠ qDone ∧
    (requestError qDone false pA).1.inflightRequests =
      qDone.inflightRequests - 1 ∧
    Effect.rtRemoveKey pA.key ∈ (requestError qDone false pA).2 := by
  decide

/-- C3 amended: once the done flag is set, a late handleResponse is a
strict no-op; a late newRequest only decrements inflight and schedules
nothing; a late requestError decrements inflight and removes the peer key
from the routing table exactly when the context is not cancelled, and
schedules nothing; the peerlist is never modified. -/
theorem c3_done_actions_limited_effects (q : SimpleQuery) (cancelled : Bool)
    (id : NodeID) (resp : Option ResponseMsg) (stop : Bool)
    (useful : List NodeID) (h : q.done = true) :
    handleResponse q cancelled id resp stop useful = (q, []) ∧
    newRequest q cancelled =
      ({ q with inflightRequests := q.inflightRequests - 1 }, []) ∧
    requestError q cancelled id =
      ({ q with inflightRequests := q.inflightRequests - 1 },
       if cancelled then [] else [Effect.rtRemoveKey id.key]) := by
  refine ⟨?_, ?_, ?_⟩ <;>
    simp [handleResponse, newRequest, requestError, checkIfDone, h]

/-- C3 amended, witness at a concrete done state. -/
theorem c3_done_actions_limited_effects_witness :
    handleResponse qDone false pA none false [] = (qDone, []) ∧
    newRequest qDone false =
      ({ qDone with inflightRequests := qDone.inflightRequests - 1 }, []) ∧
    requestError qDone false pA =
      ({ qDone with inflightRequests := qDone.inflightRequests - 1 },
       [Effect.rtRemoveKey pA.key]) :=
  c3_done_actions_limited_effects qDone false pA none false [] (by decide)

/-- C4: the claim says every non-self closer peer is recorded in the
peerstore, including peers after a self entry.  In the Go loop the slice
is shrunk in place while being ranged over, so the peer immediately after
a self entry is skipped (and the last one is visited twice): on
[self, p1, p2] the endpoint records p2 twice and never records p1, even
though p1 is not self.  The removal comment says the intent is only to
skip self, so the code is at fault. -/
theorem c4_closer_peer_after_self_skipped :
    (closerPeersLoopAux 0 closerWithSelf.length 0 closerWithSelf).2 =
      [Effect.maybeAddToPeerstoreFx { nodeID := { name := "p2", key := 2 } },
       Effect.maybeAddToPeerstoreFx { nodeID := { name := "p2", key := 2 } }] ∧
    ({ nodeID := { name := "p1", key := 1 } } : NodeAddr) ∈ closerWithSelf ∧
    ({ nodeID := { name := "p1", key := 1 } } : NodeAddr).nodeID.key ≠ 0 ∧
    Effect.maybeAddToPeerstoreFx { nodeID := { name := "p1", key := 1 } } ∉
      (closerPeersLoop 0 closerWithSelf).2 := by
  decide

/-- C6: a requestError that runs while the context is cancelled emits no
routing-table call at all, so any routing table is left identical. -/
theorem c6_requestError_cancelled_rt_unchanged
    (add : List Nat → NodeID → List Nat) (rt : List Nat) (q : SimpleQuery)
    (id : NodeID) :
    (requestError q true id).2 = [] ∧
    applyRTEffects add rt (requestError q true id).2 = rt := by
  cases hd : q.done <;>
    simp [requestError, checkIfDone, hd, applyRTEffects]

theorem closerPeersLoopAux_no_enqueue (k : Nat) :
    ∀ (n i : Nat) (arr : List NodeAddr),
      ((closerPeersLoopAux k n i arr).2).countP
        (fun e => e == Effect.enqueueNewRequest) = 0
  | 0, _, _ => by simp [closerPeersLoopAux]
  | n + 1, i, arr => by
    by_cases h : ((arr.getD i { nodeID := { name := "", key := 0 } }).nodeID.key == k)
    · simp only [closerPeersLoopAux, h, if_true]
      exact closerPeersLoopAux_no_enqueue k n (i + 1) _
    · simp only [closerPeersLoopAux, h, if_false, Bool.false_eq_true,
        List.countP_cons]
      simp [closerPeersLoopAux_no_enqueue k n (i + 1) arr]

/-- C7: a handleResponse that is not diverted (response not nil), not cut
short (query neither done nor cancelled) and not terminating (the user
callback returns stop = false) enqueues exactly
min(concurrency - inflight, queuedCount) newRequest actions — inflight
taken after the decrement at the start of the action, queuedCount taken
after the useful nodes were added to the frontier — and increments
inflight by exactly that amount. -/
theorem c7_handleResponse_schedules_min (q : SimpleQuery) (id : NodeID)
    (r : ResponseMsg) (useful : List NodeID) (hdone : q.done = false)
    (hle : q.inflightRequests ≤ q.concurrency) :
    (handleResponse q false id (some r) false useful).2.countP
        (fun e => e == Effect.enqueueNewRequest) =
      (min (q.concurrency - (q.inflightRequests - 1))
        ((queuedCount (addToPeerlist
          (updatePeerStatusInPeerlist q.peerlist id PeerStatus.queried)
          useful) : Int))).toNat ∧
    0 ≤ min (q.concurrency - (q.inflightRequests - 1))
        ((queuedCount (addToPeerlist
          (updatePeerStatusInPeerlist q.peerlist id PeerStatus.queried)
          useful) : Int)) ∧
    (handleResponse q false id (some r) false useful).1.inflightRequests =
      (q.inflightRequests - 1) +
        min (q.concurrency - (q.inflightRequests - 1))
          ((queuedCount (addToPeerlist
            (updatePeerStatusInPeerlist q.peerlist id PeerStatus.queried)
            useful) : Int)) := by
  simp only [handleResponse, checkIfDone, hdone, Bool.false_eq_true, if_false,
    closerPeersLoop, List.countP_append, closerPeersLoopAux_no_enqueue,
    List.countP_replicate]
  rw [min_def]
  split
  · split <;> (refine ⟨?_, ?_, ?_⟩ <;> simp_all <;> omega)
  · split <;> (refine ⟨?_, ?_, ?_⟩ <;> simp_all <;> omega)

/-- C7 witness: a concrete non-terminating handleResponse. -/
theorem c7_handleResponse_schedules_min_witness :
    (handleResponse qLive false pA (some { closerNodes := [] }) false []).2.countP
        (fun e => e == Effect.enqueueNewRequest) =
      (min (qLive.concurrency - (qLive.inflightRequests - 1))
        ((queuedCount (addToPeerlist
          (updatePeerStatusInPeerlist qLive.peerlist pA PeerStatus.queried)
          []) : Int))).toNat ∧
    0 ≤ min (qLive.concurrency - (qLive.inflightRequests - 1))
        ((queuedCount (addToPeerlist
          (updatePeerStatusInPeerlist qLive.peerlist pA PeerStatus.queried)
          []) : Int)) ∧
    (handleResponse qLive false pA (some { closerNodes := [] }) false
        []).1.inflightRequests =
      (qLive.inflightRequests - 1) +
        min (qLive.concurrency - (qLive.inflightRequests - 1))
          ((queuedCount (addToPeerlist
            (updatePeerStatusInPeerlist qLive.peerlist pA PeerStatus.queried)
            []) : Int)) :=
  c7_handleResponse_schedules_min qLive pA { closerNodes := [] } []
    (by decide) (by decide)

theorem plInsertSorted_length (t : Nat) (e : NodeID) :
    ∀ l : List (NodeID × PeerStatus),
      (plInsertSorted t e l).length = l.length + 1
  | [] => by simp [plInsertSorted]
  | x :: xs => by
    simp only [plInsertSorted]
    split
    · simp
    · simp [plInsertSorted_length t e xs]

theorem plHasName_insertSorted (t : Nat) (e : NodeID) (s : String) :
    ∀ l : List (NodeID × PeerStatus),
      plHasName (plInsertSorted t e l) s = ((e.name == s) || plHasName l s)
  | [] => by simp [plInsertSorted, plHasName]
  | x :: xs => by
    simp only [plInsertSorted]
    split
    · simp [plHasName]
    · have ih := plHasName_insertSorted t e s xs
      simp only [plHasName, List.any_cons] at *
      rw [ih]
      cases x.1.name == s <;> cases e.name == s <;> simp

theorem addToPeerlist_length :
    ∀ (cps : List NodeID) (pl : PeerList),
      (∀ n ∈ cps, plHasName pl.entries n.name = false) →
      (cps.map NodeID.name).Nodup →
      (addToPeerlist pl cps).entries.length = pl.entries.length + cps.length
  | [], pl, _, _ => by simp [addToPeerlist]
  | n :: ns, pl, h, hnd => by
    simp only [List.map_cons, List.nodup_cons] at hnd
    have hn : plHasName pl.entries n.name = false := h n (by simp)
    have hstep : addToPeerlist pl (n :: ns) =
        addToPeerlist
          { pl with entries := plInsertSorted pl.target n pl.entries } ns := by
      simp [addToPeerlist, hn]
    rw [hstep]
    have h2 : ∀ m ∈ ns,
        plHasName (plInsertSorted pl.target n pl.entries) m.name = false := by
      intro m hm
      rw [plHasName_insertSorted]
      have hne : ¬(n.name = m.name) := by
        intro he
        exact hnd.1 (he ▸ List.mem_map_of_mem NodeID.name hm)
      simp [hne, h m (List.mem_cons_of_mem _ hm)]
    have ih := addToPeerlist_length ns
      { pl with entries := plInsertSorted pl.target n pl.entries } h2 hnd.2
    simp only [ih, plInsertSorted_length]
    simp
    omega

/-- C8: at construction, with a duplicate-free seed list (as returned by
NearestPeers, whose entries have distinct keys), exactly
min(frontier-size, concurrency) newRequest actions are enqueued and
inflight is set to exactly that count. -/
theorem c8_construction_schedules_min (t s : Nat) (conc : Int)
    (cps : List NodeID) (hnd : (cps.map NodeID.name).Nodup)
    (hc : 0 ≤ conc) :
    (NewSimpleQuery t s conc cps).2.length =
      (min (((NewSimpleQuery t s conc cps).1.peerlist.entries.length : Int))
        conc).toNat ∧
    (NewSimpleQuery t s conc cps).1.inflightRequests =
      min (((NewSimpleQuery t s conc cps).1.peerlist.entries.length : Int))
        conc := by
  have hlen : (addToPeerlist { target := t, entries := [] } cps).entries.length
      = cps.length := by
    rw [addToPeerlist_length cps _ (by intro n _; simp [plHasName]) hnd]
    simp
  simp only [NewSimpleQuery, List.length_replicate, hlen]
  rw [min_def]
  split <;> split <;> constructor <;> simp_all <;> omega

/-- C8 witness: a concrete construction with one seed peer and
concurrency three. -/
theorem c8_construction_schedules_min_witness :
    (NewSimpleQuery 0 7 3 [{ name := "a", key := 1 }]).2.length =
      (min (((NewSimpleQuery 0 7 3
        [{ name := "a", key := 1 }]).1.peerlist.entries.length : Int))
        3).toNat ∧
    (NewSimpleQuery 0 7 3 [{ name := "a", key := 1 }]).1.inflightRequests =
      min (((NewSimpleQuery 0 7 3
        [{ name := "a", key := 1 }]).1.peerlist.entries.length : Int)) 3 :=
  c8_construction_schedules_min 0 7 3 [{ name := "a", key := 1 }]
    (by decide) (by decide)

theorem requestError_inflight (q : SimpleQuery) (c : Bool) (id : NodeID) :
    (requestError q c id).1.concurrency = q.concurrency ∧
    (requestError q c id).1.inflightRequests = q.inflightRequests - 1 := by
  unfold requestError checkIfDone
  cases hd : q.done <;> cases c <;> simp

theorem newRequest_inflight (q : SimpleQuery) (c : Bool) :
    (newRequest q c).1.concurrency = q.concurrency ∧
    ((newRequest q c).1.inflightRequests = q.inflightRequests ∨
     (newRequest q c).1.inflightRequests = q.inflightRequests - 1) := by
  unfold newRequest checkIfDone
  cases hd : q.done <;> cases c <;> simp <;>
    rcases hp : (popClosestQueued q.peerlist).1 with _ | id <;>
      simp [hp] <;> split <;> simp

theorem handleResponse_inflight (q : SimpleQuery) (c : Bool) (id : NodeID)
    (resp : Option ResponseMsg) (stop : Bool) (useful : List NodeID)
    (h : q.inflightRequests ≤ q.concurrency) :
    (handleResponse q c id resp stop useful).1.concurrency = q.concurrency ∧
    (handleResponse q c id resp stop useful).1.inflightRequests ≤
      q.concurrency := by
  rcases resp with _ | r <;> cases hd : q.done <;> cases hc : c <;> cases stop <;>
    simp [handleResponse, checkIfDone, hd, requestError] <;>
    omega

theorem qstep_preserves (q q2 : SimpleQuery) (hs : QStep q q2)
    (h : q.inflightRequests ≤ q.concurrency) :
    q2.inflightRequests ≤ q2.concurrency := by
  cases hs with
  | newReq c =>
    have hn := newRequest_inflight q c
    omega
  | handleResp c id resp stop useful =>
    have hn := handleResponse_inflight q c id resp stop useful h
    omega
  | reqErr c id =>
    have hn := requestError_inflight q c id
    omega

/-- C2: in every state reachable from construction by any sequence of
newRequest, handleResponse and requestError actions, the inflight counter
is at most the configured concurrency. -/
theorem c2_inflight_le_concurrency (t s : Nat) (conc : Int)
    (cps : List NodeID) (q : SimpleQuery) (h : QReachable t s conc cps q) :
    q.inflightRequests ≤ q.concurrency := by
  have hinit : (NewSimpleQuery t s conc cps).1.inflightRequests ≤
      (NewSimpleQuery t s conc cps).1.concurrency := by
    simp [NewSimpleQuery]
    split <;> omega
  induction h with
  | refl => exact hinit
  | tail _ hstep ih => exact qstep_preserves _ _ hstep ih

/-- C2 witness: the freshly constructed query itself is reachable. -/
theorem c2_inflight_le_concurrency_witness :
    (NewSimpleQuery 0 0 3 [{ name := "a", key := 1 }]).1.inflightRequests ≤
      (NewSimpleQuery 0 0 3 [{ name := "a", key := 1 }]).1.concurrency :=
  c2_inflight_le_concurrency 0 0 3 [{ name := "a", key := 1 }]
    (NewSimpleQuery 0 0 3 [{ name := "a", key := 1 }]).1
    Relation.ReflTransGen.refl

theorem mem_removeSid (l : List Nat) (a b : Nat) :
    a ∈ removeSid l b ↔ (a ∈ l ∧ a ≠ b) := by
  simp [removeSid, List.mem_filter]

theorem mem_insertSid (l : List Nat) (a b : Nat) :
    a ∈ insertSid l b ↔ (a ∈ l ∨ a = b) := by
  unfold insertSid
  split <;> simp_all

theorem addCloserNodes_streams (l : List NodeAddr) :
    ∀ e : EndpointState,
      (addCloserNodes e l).streamFollowup = e.streamFollowup ∧
      (addCloserNodes e l).streamTimeout = e.streamTimeout := by
  induction l with
  | nil => intro e; simp [addCloserNodes]
  | cons p ps ih =>
    intro e
    simp only [addCloserNodes, List.foldl_cons] at *
    exact ih _

theorem dialPeer_streams (e : EndpointState) (id : NodeID) :
    (DialPeer e id).1.streamFollowup = e.streamFollowup ∧
    (DialPeer e id).1.streamTimeout = e.streamTimeout := by
  unfold DialPeer
  rcases h : lookupA e.connStatus id.name with _ | c
  · simp
  · cases c <;> simp

theorem sidinv_step (sid : Nat) (e : EndpointState) (d : Nat) (ev : NetEvent)
    (h : SidInv sid e d) :
    SidInv sid (execEvent e ev).1 (d + deliveredTo sid (execEvent e ev).2) := by
  obtain ⟨h1, h2⟩ := h
  cases ev with
  | msgArrive sid2 m =>
    by_cases hin : sid2 ∈ e.streamFollowup
    · by_cases heq : sid2 = sid
      · subst heq
        rcases m with _ | r <;>
          simp_all [execEvent, HandleMessage, SidInv, deliveredTo,
            mem_removeSid, addCloserNodes_streams]
      · rcases m with _ | r <;>
          simp_all [execEvent, HandleMessage, SidInv, deliveredTo,
            mem_removeSid, addCloserNodes_streams, Ne.symm heq]
    · simp_all [execEvent, HandleMessage, SidInv, deliveredTo]
  | timerFire sid2 =>
    by_cases hp : sid2 ∈ e.streamTimeout
    · by_cases heq : sid2 = sid
      · subst heq
        have hf := h2 hp
        simp_all [execEvent, timeoutFire, SidInv, deliveredTo, mem_removeSid]
      · by_cases hf2 : sid2 ∈ e.streamFollowup <;>
          simp_all [execEvent, timeoutFire, SidInv, deliveredTo,
            mem_removeSid, Ne.symm heq]
    · simp_all [execEvent, SidInv, deliveredTo]

theorem sidinv_fold (sid : Nat) :
    ∀ (evs : List NetEvent) (e : EndpointState) (d : Nat),
      SidInv sid e d →
      SidInv sid (execEvents e evs).1
        (d + deliveredTo sid (execEvents e evs).2)
  | [], e, d, h => by simpa [execEvents, deliveredTo] using h
  | ev :: evs, e, d, h => by
    have hstep := sidinv_step sid e d ev h
    have hrec := sidinv_fold sid evs (execEvent e ev).1
      (d + deliveredTo sid (execEvent e ev).2) hstep
    simp only [execEvents, deliveredTo, List.countP_append] at hrec ⊢
    rw [← Nat.add_assoc]
    exact hrec

theorem sidsync_step (sid : Nat) (e : EndpointState) (ev : NetEvent)
    (h : sid ∈ e.streamTimeout ↔ sid ∈ e.streamFollowup) :
    (sid ∈ (execEvent e ev).1.streamTimeout ↔
      sid ∈ (execEvent e ev).1.streamFollowup) := by
  cases ev with
  | msgArrive sid2 m =>
    by_cases hin : sid2 ∈ e.streamFollowup
    · rcases m with _ | r <;>
        simp_all [execEvent, HandleMessage, mem_removeSid,
          addCloserNodes_streams]
    · simp_all [execEvent, HandleMessage]
  | timerFire sid2 =>
    by_cases hp : sid2 ∈ e.streamTimeout
    · by_cases hf2 : sid2 ∈ e.streamFollowup <;>
        simp_all [execEvent, timeoutFire, mem_removeSid]
    · simp_all [execEvent]

theorem sidsync_fold (sid : Nat) :
    ∀ (evs : List NetEvent) (e : EndpointState),
      (sid ∈ e.streamTimeout ↔ sid ∈ e.streamFollowup) →
      (sid ∈ (execEvents e evs).1.streamTimeout ↔
        sid ∈ (execEvents e evs).1.streamFollowup)
  | [], e, h => by simpa [execEvents] using h
  | ev :: evs, e, h =>
    sidsync_fold sid evs (execEvent e ev).1 (sidsync_step sid e ev h)

theorem send_sidinv (e : EndpointState) (id : NodeID) (timeout : Nat)
    (routerSid : Option Nat) (sid : Nat)
    (hf : sid ∉ e.streamFollowup) (ht : sid ∉ e.streamTimeout)
    (hrs : routerSid = none ∨ routerSid = some sid) :
    SidInv sid (SendRequestHandleResponse e id timeout routerSid).1
      ((SendRequestHandleResponse e id timeout routerSid).2).length := by
  have hds := dialPeer_streams e id
  unfold SendRequestHandleResponse
  rcases hdp : (DialPeer e id).2 with _ | err
  · rcases hrs with rfl | rfl
    · simp_all [SidInv]
    · by_cases hto : timeout ≠ 0 <;>
        simp_all [SidInv, mem_insertSid]
  · simp_all [SidInv]

theorem send_sidsync (e : EndpointState) (id : NodeID) (timeout : Nat)
    (routerSid : Option Nat) (sid : Nat)
    (hf : sid ∉ e.streamFollowup) (ht : sid ∉ e.streamTimeout)
    (hrs : routerSid = none ∨ routerSid = some sid) (hto : timeout ≠ 0) :
    (sid ∈ (SendRequestHandleResponse e id timeout routerSid).1.streamTimeout ↔
      sid ∈ (SendRequestHandleResponse e id timeout routerSid).1.streamFollowup) := by
  have hds := dialPeer_streams e id
  unfold SendRequestHandleResponse
  rcases hdp : (DialPeer e id).2 with _ | err
  · rcases hrs with rfl | rfl
    · simp_all
    · simp_all [mem_insertSid]
  · simp_all

/-- C5 counterexample: with timeout zero, a successful dial and send, and
a remote that never responds, the callback is never delivered at all, so
the unconditional exactly-once claim fails for the outcome in which the
peer never responds. -/
theorem c5_zero_timeout_no_response_no_delivery_cex :
    (DialPeer eDialable pA).2 = none ∧
    (SendRequestHandleResponse eDialable pA 0 (some 7)).2.length +
      deliveredTo 7
        (execEvents (SendRequestHandleResponse eDialable pA 0 (some 7)).1 []).2
      = 0 := by
  decide

/-- C5 amended: for a request on a fresh stream id, over every sequence
of later network events, the callback is delivered at most once; it is
delivered exactly once when the dial fails, when the router send fails,
and — when a nonzero timeout was set — whenever the planned timeout has
left the planner (it fired, or a response consumed it).  The payload type
carries exactly one of a response, the dial error, the send error, the
timeout error or the invalid-response error. -/
theorem c5_callback_at_most_once (e : EndpointState) (id : NodeID)
    (timeout : Nat) (routerSid : Option Nat) (sid : Nat)
    (evs : List NetEvent)
    (hf : sid ∉ e.streamFollowup) (ht : sid ∉ e.streamTimeout)
    (hrs : routerSid = none ∨ routerSid = some sid) :
    (SendRequestHandleResponse e id timeout routerSid).2.length +
      deliveredTo sid
        (execEvents (SendRequestHandleResponse e id timeout routerSid).1 evs).2
      ≤ 1 ∧
    ((DialPeer e id).2 ≠ none ∨ routerSid = none →
      (SendRequestHandleResponse e id timeout routerSid).2.length +
        deliveredTo sid
          (execEvents (SendRequestHandleResponse e id timeout routerSid).1 evs).2
        = 1) ∧
    (timeout ≠ 0 →
      sid ∉ (execEvents (SendRequestHandleResponse e id timeout routerSid).1
        evs).1.streamTimeout →
      (SendRequestHandleResponse e id timeout routerSid).2.length +
        deliveredTo sid
          (execEvents (SendRequestHandleResponse e id timeout routerSid).1 evs).2
        = 1) := by
  have hinv := sidinv_fold sid evs _ _
    (send_sidinv e id timeout routerSid sid hf ht hrs)
  obtain ⟨h1, h2⟩ := hinv
  refine ⟨by omega, ?_, ?_⟩
  · intro hfail
    have hlen : (SendRequestHandleResponse e id timeout routerSid).2.length = 1 := by
      unfold SendRequestHandleResponse
      rcases hdp : (DialPeer e id).2 with _ | err
      · rcases hfail with hh | rfl
        · simp_all
        · simp [hdp]
      · simp [hdp]
    omega
  · intro hto hnt
    have hsync := sidsync_fold sid evs _
      (send_sidsync e id timeout routerSid sid hf ht hrs hto)
    have hout : sid ∉ (execEvents (SendRequestHandleResponse e id timeout
        routerSid).1 evs).1.streamFollowup := fun hin => hnt (hsync.mpr hin)
    rw [if_neg hout] at h1
    omega

/-- C5 amended, witness: a concrete request with nonzero timeout whose
timer fires. -/
theorem c5_callback_at_most_once_witness :
    (SendRequestHandleResponse eDialable pA 5 (some 7)).2.length +
      deliveredTo 7
        (execEvents (SendRequestHandleResponse eDialable pA 5 (some 7)).1
          [NetEvent.timerFire 7]).2
      ≤ 1 ∧
    ((DialPeer eDialable pA).2 ≠ none ∨ (some 7 : Option Nat) = none →
      (SendRequestHandleResponse eDialable pA 5 (some 7)).2.length +
        deliveredTo 7
          (execEvents (SendRequestHandleResponse eDialable pA 5 (some 7)).1
            [NetEvent.timerFire 7]).2
        = 1) ∧
    ((5 : Nat) ≠ 0 →
      7 ∉ (execEvents (SendRequestHandleResponse eDialable pA 5 (some 7)).1
        [NetEvent.timerFire 7]).1.streamTimeout →
      (SendRequestHandleResponse eDialable pA 5 (some 7)).2.length +
        deliveredTo 7
          (execEvents (SendRequestHandleResponse eDialable pA 5 (some 7)).1
            [NetEvent.timerFire 7]).2
        = 1) :=
  c5_callback_at_most_once eDialable pA 5 (some 7) 7 [NetEvent.timerFire 7]
    (by decide) (by decide) (Or.inr rfl)

theorem c10_step (sid : Nat) (e : EndpointState) (ev : NetEvent)
    (h : sid ∉ e.streamTimeout) :
    sid ∉ (execEvent e ev).1.streamTimeout ∧
    ∀ p, (sid, p) ∈ (execEvent e ev).2 →
      p ≠ CbPayload.timedOut ∧ ∃ m, ev = NetEvent.msgArrive sid m := by
  cases ev with
  | msgArrive sid2 m =>
    by_cases hin : sid2 ∈ e.streamFollowup
    · rcases m with _ | r <;>
        simp_all [execEvent, HandleMessage, mem_removeSid,
          addCloserNodes_streams]
    · simp_all [execEvent, HandleMessage]
  | timerFire sid2 =>
    by_cases hp : sid2 ∈ e.streamTimeout
    · have hne : sid2 ≠ sid := fun he => h (he ▸ hp)
      by_cases hf2 : sid2 ∈ e.streamFollowup <;>
        simp_all [execEvent, timeoutFire, mem_removeSid, Ne.symm hne]
    · simp_all [execEvent]

theorem c10_fold (sid : Nat) :
    ∀ (evs : List NetEvent) (e : EndpointState), sid ∉ e.streamTimeout →
      sid ∉ (execEvents e evs).1.streamTimeout ∧
      ∀ p, (sid, p) ∈ (execEvents e evs).2 →
        p ≠ CbPayload.timedOut ∧ ∃ m, NetEvent.msgArrive sid m ∈ evs
  | [], e, h => by simpa [execEvents] using h
  | ev :: evs, e, h => by
    obtain ⟨hs1, hs2⟩ := c10_step sid e ev h
    obtain ⟨hr1, hr2⟩ := c10_fold sid evs (execEvent e ev).1 hs1
    refine ⟨by simpa [execEvents] using hr1, ?_⟩
    intro p hp
    simp only [execEvents, List.mem_append] at hp
    rcases hp with hp | hp
    · obtain ⟨hne, m, hm⟩ := hs2 p hp
      exact ⟨hne, m, by simp [hm]⟩
    · obtain ⟨hne, m, hm⟩ := hr2 p hp
      exact ⟨hne, m, by simp [hm]⟩

/-- C10: a request sent with timeout zero past the dial and send steps
plans no timeout for its stream, ErrTimeout is never delivered to its
callback over any sequence of later events, and if no message ever
arrives on the stream the callback is never invoked at all. -/
theorem c10_zero_timeout_never_times_out (e : EndpointState) (id : NodeID)
    (sid : Nat) (evs : List NetEvent)
    (ht : sid ∉ e.streamTimeout) (hdial : (DialPeer e id).2 = none) :
    sid ∉ (SendRequestHandleResponse e id 0 (some sid)).1.streamTimeout ∧
    sid ∈ (SendRequestHandleResponse e id 0 (some sid)).1.streamFollowup ∧
    (∀ p, (sid, p) ∈
        (execEvents (SendRequestHandleResponse e id 0 (some sid)).1 evs).2 →
      p ≠ CbPayload.timedOut) ∧
    ((∀ m, NetEvent.msgArrive sid m ∉ evs) →
      deliveredTo sid
        (execEvents (SendRequestHandleResponse e id 0 (some sid)).1 evs).2
        = 0) := by
  have hds := dialPeer_streams e id
  have hsend1 : sid ∉ (SendRequestHandleResponse e id 0 (some sid)).1.streamTimeout := by
    unfold SendRequestHandleResponse
    simp_all
  have hsend2 : sid ∈ (SendRequestHandleResponse e id 0 (some sid)).1.streamFollowup := by
    unfold SendRequestHandleResponse
    simp_all [mem_insertSid]
  obtain ⟨hf1, hf2⟩ := c10_fold sid evs _ hsend1
  refine ⟨hsend1, hsend2, fun p hp => (hf2 p hp).1, ?_⟩
  intro hno
  rw [deliveredTo, List.countP_eq_zero]
  rintro ⟨a1, a2⟩ ha
  simp only [beq_iff_eq]
  intro he
  subst he
  obtain ⟨_, m, hm⟩ := hf2 a2 ha
  exact hno m hm

/-- C10 witness: a concrete zero-timeout request with no later events. -/
theorem c10_zero_timeout_never_times_out_witness :
    7 ∉ (SendRequestHandleResponse eDialable pA 0 (some 7)).1.streamTimeout ∧
    7 ∈ (SendRequestHandleResponse eDialable pA 0 (some 7)).1.streamFollowup ∧
    (∀ p, (7, p) ∈
        (execEvents (SendRequestHandleResponse eDialable pA 0 (some 7)).1 []).2 →
      p ≠ CbPayload.timedOut) ∧
    ((∀ m, NetEvent.msgArrive 7 m ∉ ([] : List NetEvent)) →
      deliveredTo 7
        (execEvents (SendRequestHandleResponse eDialable pA 0 (some 7)).1 []).2
        = 0) :=
  c10_zero_timeout_never_times_out eDialable pA 7 [] (by decide) (by decide)

/-- C9: MaybeAddToPeerstore is idempotent: a second call with the same
address returns the state of the first call unchanged, and the returned
error is always nil. -/
theorem c9_MaybeAddToPeerstore_idempotent (e : EndpointState) (a : NodeAddr)
    (ttl : Nat) :
    MaybeAddToPeerstore (MaybeAddToPeerstore e a ttl).1 a ttl =
      MaybeAddToPeerstore e a ttl ∧
    (MaybeAddToPeerstore e a ttl).2 = none := by
  constructor
  · unfold MaybeAddToPeerstore
    by_cases h1 : hasKeyA e.peerstore a.nodeID.name <;>
      by_cases h2 : hasKeyA e.connStatus a.nodeID.name <;>
        simp [h1, h2, hasKeyA_append_self]
  · rfl

end GoKademlia
